import Mathlib

/-!
Shallow embedding of the full-text indexing plugin
(`libs/jwst/src/workspaces/plugins/indexing/indexing.rs`).

The plugin keeps an atomic dirty counter (`queue_reindex`), a tantivy
schema/index, and exposes `on_update` (reindex-if-dirty) and `search`.
The tantivy engine itself is an external dependency; it is modelled at
its interface boundary: the writer path (`WriteEnv`: writer creation,
per-document add, commit, each of which may fail) and the reader path
(`SearchEnv`: reader construction, query parsing, the `TopDocs`
collector output, and per-address document retrieval).  The committed
index is modelled as the list of documents committed so far, in commit
order; a pass whose commit fails leaves the committed state unchanged.

Machine integers: the `AtomicU32` dirty counter is modelled as a `Nat`;
the only subtraction performed by the code is `fetch_sub(curr)` at a
moment when the counter holds `curr + raced` (the value loaded at the
start of the pass plus any concurrent `mark_dirty` increments), so no
wrap-around can occur and `Nat` subtraction is exact.  `f32` relevance
scores are only moved and compared by the code, never computed with, so
they are modelled as rationals.
-/

namespace Indexing

/-- `lib0::any::Any` dynamic values.  Only the `String` variant is ever
consumed by the indexing code; every other variant is collapsed into
`other`. -/
inductive AnyVal where
  | string (s : String)
  | other
deriving DecidableEq, Repr

/-- A block of the workspace document model: an id and a read-only
content mapping from field name to dynamic value (`Block::content`). -/
structure Block where
  id : String
  content : List (String × AnyVal)
deriving DecidableEq, Repr

/-- `block.content().get(key)`: first binding of `key` in the content
mapping. -/
def contentGet (c : List (String × AnyVal)) (k : String) : Option AnyVal :=
  (c.find? fun p => p.1 == k).map fun p => p.2

/-- The `match a { Any::String(str) => Some(...), _ => None }` filter
applied to both extracted fields. -/
def anyAsString : AnyVal → Option String
  | .string s => some s
  | .other => none

/-- The `(title, body)` pair extracted from one block in `on_update`:
the `title` / `text` fields, kept only when string-typed. -/
def extract (b : Block) : Option String × Option String :=
  ((contentGet b.content "title").bind anyAsString,
   (contentGet b.content "text").bind anyAsString)

/-- The tantivy schema, reduced to what the plugin observes: the list of
declared field names (`get_field` resolves a name to a field handle). -/
structure Schema where
  fields : List String
deriving DecidableEq, Repr

/-- Position of the first field called `name`. -/
def fieldIdx (fields : List String) (name : String) : Option Nat :=
  match fields with
  | [] => none
  | f :: fs => if f == name then some 0 else (fieldIdx fs name).map (· + 1)

/-- `Schema::get_field`: `None` when the schema has no such field. -/
def Schema.get_field (s : Schema) (name : String) : Option Nat :=
  fieldIdx s.fields name

/-- `f32` relevance scores, modelled as rationals (only moved and
compared by this code). -/
abbrev Score := Rat

/-- `SearchResult { block_id, score }`. -/
structure SearchResult where
  block_id : String
  score : Score
deriving DecidableEq, Repr

/-- An index document as built by `re_index_content`: `block_id` is
always added; `title` / `body` only when extracted. -/
structure Doc where
  block_id : String
  title : Option String
  body : Option String
deriving DecidableEq, Repr

/-- Build the tantivy `Document` for one entry of the reindex list. -/
def buildDoc (e : String × (Option String × Option String)) : Doc :=
  { block_id := e.1, title := e.2.1, body := e.2.2 }

/-- Outcome of running a piece of code that may `unwrap()` a `None`:
either a Rust panic, or a normal return value. -/
inductive Outcome (α : Type) where
  | panicked
  | returned (val : α)
deriving DecidableEq, Repr

/-- `HashMap::insert` on the association-list model of
`re_index_list`: replace the binding in place when the key is present,
append otherwise. -/
def insertAssoc {α : Type} (l : List (String × α)) (k : String) (v : α) :
    List (String × α) :=
  match l with
  | [] => [(k, v)]
  | p :: ps => if p.1 == k then (k, v) :: ps else p :: insertAssoc ps k v

/-- The `re_index_list` built by `on_update` lines 77–95: one
`(id, (title, body))` entry per block, inserted in iteration order into
a map keyed by block id. -/
def buildReindexList (blocks : List Block) :
    List (String × (Option String × Option String)) :=
  blocks.foldl (fun acc b => insertAssoc acc b.id (extract b)) []

/-- Interface of tantivy's writer path for one pass: whether
`index.writer(50_000_000)` succeeds, whether `add_document` succeeds for
a given document, and whether `commit` succeeds. -/
structure WriteEnv where
  writerOk : Except String Unit
  addOk : Doc → Except String Unit
  commitOk : Except String Unit

/-- The `for` loop of `re_index_content`: add each document, stopping at
the first failing `add_document`. -/
def addAll (env : WriteEnv) : List Doc → Except String Unit
  | [] => .ok ()
  | d :: ds =>
    match env.addOk d with
    | .error e => .error e
    | .ok _ => addAll env ds

/-- `IndexingPluginImpl::re_index_content` (lines 113–147): unwrap the
three schema fields (panicking if any is missing), create the writer,
add one document per entry, commit.  Returns the operation result
together with the committed index: unchanged on any failure (an
uncommitted session persists nothing), extended by the batch in order on
success. -/
def re_index_content (schema : Schema) (env : WriteEnv)
    (blocks : List (String × (Option String × Option String)))
    (index : List Doc) : Outcome (Except String Unit × List Doc) :=
  match schema.get_field "block_id", schema.get_field "title",
      schema.get_field "body" with
  | some _, some _, some _ =>
    match env.writerOk with
    | .error e => .returned (.error ("Error creating writer: " ++ e), index)
    | .ok _ =>
      match addAll env (blocks.map buildDoc) with
      | .error e => .returned (.error e, index)
      | .ok _ =>
        match env.commitOk with
        | .error e => .returned (.error e, index)
        | .ok _ => .returned (.ok (), index ++ blocks.map buildDoc)
  | _, _, _ => .panicked

/-- Mutable plugin state observed by `on_update`: the dirty counter
`queue_reindex` and the committed index. -/
structure PluginState where
  queue_reindex : Nat
  index : List Doc
deriving DecidableEq, Repr

/-- `PluginImpl::on_update` (lines 74–109): load the counter; when
positive, build the reindex list from `ws.block_iter()` and run
`re_index_content`, propagating its error (wrapped) *before* the
decrement; finally `fetch_sub` the loaded value.  `raced` is the number
of `mark_dirty` increments that land between the load and the
`fetch_sub` (they are simply present in the counter by then). -/
def on_update (schema : Schema) (env : WriteEnv) (ws : List Block)
    (raced : Nat) (st : PluginState) :
    Outcome (Except String Unit × PluginState) :=
  if st.queue_reindex > 0 then
    match re_index_content schema env (buildReindexList ws) st.index with
    | .panicked => .panicked
    | .returned (.error e, idx) =>
      .returned (.error ("Error during reindex: " ++ e),
        { queue_reindex := st.queue_reindex + raced, index := idx })
    | .returned (.ok _, idx) =>
      .returned (.ok (),
        { queue_reindex := st.queue_reindex + raced - st.queue_reindex,
          index := idx })
  else
    .returned (.ok (),
      { queue_reindex := st.queue_reindex + raced - st.queue_reindex,
        index := st.index })

/-- A stored field value retrieved from the index: either a string or
some non-string value (`Value::Str` vs. anything else). -/
inductive TValue where
  | str (s : String)
  | nonStr
deriving DecidableEq, Repr

/-- A document retrieved by `searcher.doc`: its stored fields, as a
mapping from field handle to value.  `get_first` returns the first value
bound to the field. -/
structure RetrievedDoc where
  fields : List (Nat × TValue)
deriving DecidableEq, Repr

def RetrievedDoc.get_first (d : RetrievedDoc) (f : Nat) : Option TValue :=
  (d.fields.find? fun p => p.1 == f).map fun p => p.2

/-- Interface of tantivy's reader path for one `search` call: reader
construction, query parsing, the `(score, doc_address)` list produced by
the `TopDocs` collector, and per-address document retrieval. -/
structure SearchEnv where
  readerOk : Except String Unit
  parseOk : Except String Unit
  topDocs : Except String (List (Score × Nat))
  docAt : Nat → Except String RetrievedDoc

/-- The hit loop of `search` (lines 55–66): retrieve each document
(propagating retrieval errors); push a `SearchResult` when the stored
`block_id` is a string, otherwise record the offending document as a
diagnostic (`eprintln!`) and skip it. -/
def searchLoop (env : SearchEnv) (bf : Nat) :
    List (Score × Nat) → Except String (List SearchResult × List RetrievedDoc)
  | [] => .ok ([], [])
  | (score, addr) :: rest =>
    match env.docAt addr with
    | .error e => .error e
    | .ok doc =>
      match doc.get_first bf with
      | some (.str id) =>
        match searchLoop env bf rest with
        | .error e => .error e
        | .ok (items, diags) =>
          .ok ({ block_id := id, score := score } :: items, diags)
      | _ =>
        match searchLoop env bf rest with
        | .error e => .error e
        | .ok (items, diags) => .ok (items, doc :: diags)

/-- `IndexingPluginImpl::search` (lines 35–70): build the reader, parse
the query, run the `TopDocs` collector; when there are hits, unwrap the
`block_id` field (panicking if the schema lacks it) and run the hit
loop.  Returns the results together with the diagnostics emitted for
skipped hits. -/
def search (schema : Schema) (env : SearchEnv) :
    Outcome (Except String (List SearchResult × List RetrievedDoc)) :=
  match env.readerOk with
  | .error e => .returned (.error e)
  | .ok _ =>
    match env.parseOk with
    | .error e => .returned (.error e)
    | .ok _ =>
      match env.topDocs with
      | .error e => .returned (.error e)
      | .ok tds =>
        if tds.isEmpty then .returned (.ok ([], []))
        else
          match schema.get_field "block_id" with
          | none => .panicked
          | some bf =>
            match searchLoop env bf tds with
            | .error e => .returned (.error e)
            | .ok r => .returned (.ok r)

/-- What one hit contributes to the result list: `some` exactly when its
document is retrievable and stores a string `block_id`. -/
def hitResult (env : SearchEnv) (bf : Nat) (p : Score × Nat) :
    Option SearchResult :=
  match env.docAt p.2 with
  | .ok doc =>
    match doc.get_first bf with
    | some (.str id) => some { block_id := id, score := p.1 }
    | _ => none
  | .error _ => none

/-- What one hit contributes to the diagnostics: `some` exactly when its
document is retrievable but lacks a string `block_id`. -/
def hitDiag (env : SearchEnv) (bf : Nat) (p : Score × Nat) :
    Option RetrievedDoc :=
  match env.docAt p.2 with
  | .ok doc =>
    match doc.get_first bf with
    | some (.str _) => none
    | _ => some doc
  | .error _ => none

/-- The hits kept by the loop, in collector order. -/
def goodHits (env : SearchEnv) (bf : Nat) (tds : List (Score × Nat)) :
    List SearchResult :=
  tds.filterMap (hitResult env bf)

/-- The hits skipped by the loop, in collector order. -/
def badHits (env : SearchEnv) (bf : Nat) (tds : List (Score × Nat)) :
    List RetrievedDoc :=
  tds.filterMap (hitDiag env bf)

/-! ### Association-list lemmas for the reindex map -/

/-- Keys of an association list, in order. -/
def keysOf {α : Type} (l : List (String × α)) : List String :=
  l.map fun p => p.1

@[simp]
theorem keysOf_nil {α : Type} : keysOf ([] : List (String × α)) = [] := rfl

@[simp]
theorem keysOf_cons {α : Type} (p : String × α) (l : List (String × α)) :
    keysOf (p :: l) = p.1 :: keysOf l := rfl

theorem mem_insertAssoc {α : Type} {l : List (String × α)} {k : String}
    {v : α} {e : String × α} (h : e ∈ insertAssoc l k v) :
    e ∈ l ∨ e = (k, v) := by
  induction l with
  | nil =>
    simp only [insertAssoc, List.mem_singleton] at h
    exact Or.inr h
  | cons p ps ih =>
    simp only [insertAssoc] at h
    by_cases hk : (p.1 == k) = true
    · rw [if_pos hk] at h
      rcases List.mem_cons.mp h with h1 | h2
      · exact Or.inr h1
      · exact Or.inl (List.mem_cons_of_mem _ h2)
    · rw [if_neg hk] at h
      rcases List.mem_cons.mp h with h1 | h2
      · exact Or.inl (h1 ▸ List.mem_cons_self _ _)
      · rcases ih h2 with h3 | h3
        · exact Or.inl (List.mem_cons_of_mem _ h3)
        · exact Or.inr h3

theorem keysOf_insertAssoc_self {α : Type} (l : List (String × α))
    (k : String) (v : α) : k ∈ keysOf (insertAssoc l k v) := by
  induction l with
  | nil => simp [insertAssoc]
  | cons p ps ih =>
    simp only [insertAssoc]
    by_cases hk : (p.1 == k) = true
    · rw [if_pos hk]; simp
    · rw [if_neg hk]
      exact keysOf_cons _ _ ▸ List.mem_cons_of_mem _ ih

theorem keysOf_insertAssoc_mono {α : Type} {l : List (String × α)}
    {a : String} (k : String) (v : α) (h : a ∈ keysOf l) :
    a ∈ keysOf (insertAssoc l k v) := by
  induction l with
  | nil => simp at h
  | cons p ps ih =>
    simp only [insertAssoc]
    rcases List.mem_cons.mp (keysOf_cons p ps ▸ h) with h1 | h1
    · by_cases hk : (p.1 == k) = true
      · have hpk : p.1 = k := by simpa using hk
        rw [if_pos hk]
        simp [h1, hpk]
      · rw [if_neg hk]
        simp [h1]
    · by_cases hk : (p.1 == k) = true
      · rw [if_pos hk]
        exact List.mem_cons_of_mem _ h1
      · rw [if_neg hk]
        exact List.mem_cons_of_mem _ (ih h1)

theorem keysOf_insertAssoc_sub {α : Type} {l : List (String × α)}
    {a k : String} {v : α} (h : a ∈ keysOf (insertAssoc l k v)) :
    a ∈ keysOf l ∨ a = k := by
  induction l with
  | nil =>
    simp only [insertAssoc] at h
    simp at h
    exact Or.inr h
  | cons p ps ih =>
    simp only [insertAssoc] at h
    by_cases hk : (p.1 == k) = true
    · rw [if_pos hk] at h
      rcases List.mem_cons.mp h with h1 | h1
      · exact Or.inr h1
      · exact Or.inl (keysOf_cons p ps ▸ List.mem_cons_of_mem _ h1)
    · rw [if_neg hk] at h
      rcases List.mem_cons.mp h with h1 | h1
      · exact Or.inl (keysOf_cons p ps ▸ (h1 ▸ List.mem_cons_self _ _))
      · rcases ih h1 with h2 | h2
        · exact Or.inl (keysOf_cons p ps ▸ List.mem_cons_of_mem _ h2)
        · exact Or.inr h2

theorem nodup_keysOf_insertAssoc {α : Type} {l : List (String × α)}
    {k : String} {v : α} (h : (keysOf l).Nodup) :
    (keysOf (insertAssoc l k v)).Nodup := by
  induction l with
  | nil => simp [insertAssoc]
  | cons p ps ih =>
    rw [keysOf_cons] at h
    rcases List.nodup_cons.mp h with ⟨hnm, hnd⟩
    simp only [insertAssoc]
    by_cases hk : (p.1 == k) = true
    · have hpk : p.1 = k := by simpa using hk
      rw [if_pos hk, keysOf_cons]
      exact List.nodup_cons.mpr ⟨hpk ▸ hnm, hnd⟩
    · rw [if_neg hk, keysOf_cons]
      refine List.nodup_cons.mpr ⟨?_, ih hnd⟩
      intro hmem
      rcases keysOf_insertAssoc_sub hmem with h1 | h1
      · exact hnm h1
      · exact absurd h1 (by simpa using hk)

theorem lookup_insertAssoc {α : Type} (l : List (String × α))
    (k k' : String) (v : α) :
    (insertAssoc l k v).lookup k' =
      if k' == k then some v else l.lookup k' := by
  induction l with
  | nil =>
    by_cases h : k' = k
    · simp [insertAssoc, List.lookup_cons, h]
    · simp [insertAssoc, List.lookup_cons, h, beq_false_of_ne h]
  | cons p ps ih =>
    obtain ⟨pk, pv⟩ := p
    simp only [insertAssoc]
    by_cases hk : pk = k
    · rw [if_pos (by simpa using hk)]
      by_cases hk' : k' = k
      · simp [List.lookup_cons, hk, hk']
      · simp [List.lookup_cons, hk, beq_false_of_ne hk']
    · rw [if_neg (by simpa using hk)]
      by_cases hp : k' = pk
      · simp [List.lookup_cons, hp, hk]
      · simp [List.lookup_cons, beq_false_of_ne hp, ih]

/-! ### Lemmas about the fold that builds the reindex list -/

theorem foldl_insert_mem :
    ∀ (ws : List Block) (acc : List (String × (Option String × Option String)))
      (e : String × (Option String × Option String)),
      e ∈ ws.foldl (fun a b => insertAssoc a b.id (extract b)) acc →
      e ∈ acc ∨ ∃ b ∈ ws, e = (b.id, extract b) := by
  intro ws
  induction ws with
  | nil => intro acc e h; exact Or.inl (by simpa using h)
  | cons w ws ih =>
    intro acc e h
    rw [List.foldl_cons] at h
    rcases ih _ _ h with h1 | h1
    · rcases mem_insertAssoc h1 with h2 | h2
      · exact Or.inl h2
      · exact Or.inr ⟨w, List.mem_cons_self _ _, h2⟩
    · obtain ⟨b, hb, he⟩ := h1
      exact Or.inr ⟨b, List.mem_cons_of_mem _ hb, he⟩

theorem foldl_insert_keys_mono :
    ∀ (ws : List Block) (acc : List (String × (Option String × Option String)))
      (a : String), a ∈ keysOf acc →
      a ∈ keysOf (ws.foldl (fun a b => insertAssoc a b.id (extract b)) acc) := by
  intro ws
  induction ws with
  | nil => intro acc a h; simpa using h
  | cons w ws ih =>
    intro acc a h
    rw [List.foldl_cons]
    exact ih _ _ (keysOf_insertAssoc_mono _ _ h)

theorem foldl_insert_keys_of_mem :
    ∀ (ws : List Block) (acc : List (String × (Option String × Option String)))
      (b : Block), b ∈ ws →
      b.id ∈ keysOf (ws.foldl (fun a b => insertAssoc a b.id (extract b)) acc) := by
  intro ws
  induction ws with
  | nil => intro acc b h; simp at h
  | cons w ws ih =>
    intro acc b h
    rw [List.foldl_cons]
    rcases List.mem_cons.mp h with h1 | h1
    · subst h1
      exact foldl_insert_keys_mono _ _ _ (keysOf_insertAssoc_self _ _ _)
    · exact ih _ _ h1

theorem foldl_insert_nodup :
    ∀ (ws : List Block) (acc : List (String × (Option String × Option String))),
      (keysOf acc).Nodup →
      (keysOf (ws.foldl (fun a b => insertAssoc a b.id (extract b)) acc)).Nodup := by
  intro ws
  induction ws with
  | nil => intro acc h; simpa using h
  | cons w ws ih =>
    intro acc h
    rw [List.foldl_cons]
    exact ih _ (nodup_keysOf_insertAssoc h)

theorem foldl_insert_lookup :
    ∀ (ws : List Block) (acc : List (String × (Option String × Option String)))
      (k : String),
      (ws.foldl (fun a b => insertAssoc a b.id (extract b)) acc).lookup k =
        match ws.reverse.find? (fun b => b.id == k) with
        | some b => some (extract b)
        | none => acc.lookup k := by
  intro ws
  induction ws with
  | nil => intro acc k; simp
  | cons w ws ih =>
    intro acc k
    rw [List.foldl_cons, ih, List.reverse_cons, List.find?_append]
    cases hf : ws.reverse.find? (fun b => b.id == k) with
    | some b => simp
    | none =>
      simp only [Option.none_or]
      by_cases hw : w.id = k
      · simp [List.find?, hw, lookup_insertAssoc]
      · have hkw : ¬ k = w.id := fun h => hw h.symm
        simp [List.find?, beq_false_of_ne hw, lookup_insertAssoc,
          beq_false_of_ne hkw]

/-! ### Inversion lemmas for the write path -/

theorem re_index_content_error {schema : Schema} {env : WriteEnv}
    {blocks : List (String × (Option String × Option String))}
    {index idx : List Doc} {e : String}
    (h : re_index_content schema env blocks index = .returned (.error e, idx)) :
    idx = index := by
  unfold re_index_content at h
  split at h
  · split at h
    · simp only [Outcome.returned.injEq, Prod.mk.injEq] at h
      exact h.2.symm
    · split at h
      · simp only [Outcome.returned.injEq, Prod.mk.injEq] at h
        exact h.2.symm
      · split at h
        · simp only [Outcome.returned.injEq, Prod.mk.injEq] at h
          exact h.2.symm
        · simp at h
  · exact Outcome.noConfusion h

theorem re_index_content_ok {schema : Schema} {env : WriteEnv}
    {blocks : List (String × (Option String × Option String))}
    {index idx : List Doc} {u : Unit}
    (h : re_index_content schema env blocks index = .returned (.ok u, idx)) :
    idx = index ++ blocks.map buildDoc := by
  unfold re_index_content at h
  split at h
  · split at h
    · simp at h
    · split at h
      · simp at h
      · split at h
        · simp at h
        · simp only [Outcome.returned.injEq, Prod.mk.injEq] at h
          exact h.2.symm
  · exact Outcome.noConfusion h

/-- Inversion of a successful `on_update`: the counter ends at exactly
the raced increments, and the index is unchanged (clean pass) or grows
by the batch (dirty pass). -/
theorem on_update_ok_inv {schema : Schema} {env : WriteEnv} {ws : List Block}
    {raced : Nat} {st st' : PluginState} {u : Unit}
    (h : on_update schema env ws raced st = .returned (.ok u, st')) :
    st'.queue_reindex = raced ∧
      (st.queue_reindex = 0 → st'.index = st.index) ∧
      (0 < st.queue_reindex →
        st'.index = st.index ++ (buildReindexList ws).map buildDoc) := by
  unfold on_update at h
  split at h
  case isTrue hpos =>
    split at h
    · exact Outcome.noConfusion h
    · simp at h
    case _ val idx heq =>
      simp only [Outcome.returned.injEq, Prod.mk.injEq] at h
      refine ⟨?_, ?_, ?_⟩
      · rw [← h.2]
        simp [Nat.add_sub_cancel_left]
      · intro h0
        omega
      · intro _
        rw [← h.2]
        simpa using re_index_content_ok heq
  case isFalse hneg =>
    simp only [Outcome.returned.injEq, Prod.mk.injEq] at h
    refine ⟨?_, ?_, ?_⟩
    · rw [← h.2]
      simp [Nat.add_sub_cancel_left]
    · intro _
      rw [← h.2]
    · intro hpos
      exact absurd hpos hneg

/-- Inversion of a failed `on_update`: the pass was dirty, the error is
the wrapped reindex error, the counter still holds the loaded value
(plus raced increments) and the committed index is unchanged. -/
theorem on_update_error_inv {schema : Schema} {env : WriteEnv}
    {ws : List Block} {raced : Nat} {st st' : PluginState} {e : String}
    (h : on_update schema env ws raced st = .returned (.error e, st')) :
    st'.queue_reindex = st.queue_reindex + raced ∧
      st'.index = st.index ∧ 0 < st.queue_reindex ∧
      ∃ e0, e = "Error during reindex: " ++ e0 ∧
        re_index_content schema env (buildReindexList ws) st.index =
          .returned (.error e0, st.index) := by
  unfold on_update at h
  split at h
  case isTrue hpos =>
    split at h
    · exact Outcome.noConfusion h
    case _ e0 idx heq =>
      have hidx : idx = st.index := re_index_content_error heq
      subst hidx
      simp only [Outcome.returned.injEq, Prod.mk.injEq, Except.error.injEq] at h
      refine ⟨?_, ?_, hpos, e0, h.1.symm, heq⟩
      · rw [← h.2]
      · rw [← h.2]
    · simp at h
  case isFalse hneg =>
    simp at h

/-! ### Lemmas about the hit loop -/

/-- When every hit document is retrievable, the loop succeeds and
partitions the hits into results and diagnostics. -/
theorem searchLoop_fetch_ok (env : SearchEnv) (bf : Nat) :
    ∀ (tds : List (Score × Nat)),
      (∀ p ∈ tds, ∃ d, env.docAt p.2 = .ok d) →
      searchLoop env bf tds = .ok (goodHits env bf tds, badHits env bf tds) := by
  intro tds
  induction tds with
  | nil => intro _; simp [searchLoop, goodHits, badHits]
  | cons p rest ih =>
    intro hall
    obtain ⟨s, a⟩ := p
    obtain ⟨d, hd⟩ := hall (s, a) (List.mem_cons_self _ _)
    have hrest := ih fun q hq => hall q (List.mem_cons_of_mem _ hq)
    simp only [searchLoop, hd, hrest, goodHits, badHits, List.filterMap_cons,
      hitResult, hitDiag]
    cases hfs : d.get_first bf with
    | none => simp [goodHits, badHits]
    | some v =>
      cases v with
      | str id => simp [goodHits, badHits]
      | nonStr => simp [goodHits, badHits]

/-- When every hit document is retrievable, every hit lands either in
the results or in the diagnostics. -/
theorem goodHits_badHits_length (env : SearchEnv) (bf : Nat) :
    ∀ (tds : List (Score × Nat)),
      (∀ p ∈ tds, ∃ d, env.docAt p.2 = .ok d) →
      tds.length = (goodHits env bf tds).length + (badHits env bf tds).length := by
  intro tds
  induction tds with
  | nil => intro _; simp [goodHits, badHits]
  | cons p rest ih =>
    intro hall
    obtain ⟨s, a⟩ := p
    obtain ⟨d, hd⟩ := hall (s, a) (List.mem_cons_self _ _)
    have hrest := ih fun q hq => hall q (List.mem_cons_of_mem _ hq)
    simp only [goodHits, badHits, List.filterMap_cons, hitResult, hitDiag, hd]
    cases hfs : d.get_first bf with
    | none => simp [goodHits, badHits, List.length_cons] at hrest ⊢; omega
    | some v =>
      cases v with
      | str id => simp [goodHits, badHits, List.length_cons] at hrest ⊢; omega
      | nonStr => simp [goodHits, badHits, List.length_cons] at hrest ⊢; omega

/-- The scores of the kept results form a sublist of the collector's
scores (in particular order and length are preserved or shrunk). -/
theorem searchLoop_scores_sublist (env : SearchEnv) (bf : Nat) :
    ∀ (tds : List (Score × Nat)) (items : List SearchResult)
      (diags : List RetrievedDoc),
      searchLoop env bf tds = .ok (items, diags) →
      (items.map fun r => r.score).Sublist (tds.map fun p => p.1) := by
  intro tds
  induction tds with
  | nil =>
    intro items diags h
    simp only [searchLoop, Except.ok.injEq, Prod.mk.injEq] at h
    simp [← h.1]
  | cons p rest ih =>
    intro items diags h
    obtain ⟨s, a⟩ := p
    simp only [searchLoop] at h
    split at h
    · exact Except.noConfusion h
    · split at h
      · split at h
        · exact Except.noConfusion h
        case _ items' diags' heq =>
          simp only [Except.ok.injEq, Prod.mk.injEq] at h
          rw [← h.1]
          simp only [List.map_cons]
          exact List.Sublist.cons₂ _ (ih _ _ heq)
      · split at h
        · exact Except.noConfusion h
        case _ items' diags' heq =>
          simp only [Except.ok.injEq, Prod.mk.injEq] at h
          rw [← h.1]
          simp only [List.map_cons]
          exact List.Sublist.cons _ (ih _ _ heq)

/-- Inversion of a successful `search`: either there were no hits at
all, or the hit loop ran with the resolved `block_id` field. -/
theorem search_ok_inv {schema : Schema} {env : SearchEnv}
    {tds : List (Score × Nat)} {items : List SearchResult}
    {diags : List RetrievedDoc} (htd : env.topDocs = .ok tds)
    (h : search schema env = .returned (.ok (items, diags))) :
    (items = [] ∧ diags = [] ∧ tds = []) ∨
      ∃ bf, schema.get_field "block_id" = some bf ∧
        searchLoop env bf tds = .ok (items, diags) := by
  unfold search at h
  split at h
  · simp at h
  · split at h
    · simp at h
    · split at h
      · simp at h
      case _ tds' heq =>
        have htds : tds' = tds := by
          rw [htd] at heq
          exact (Except.ok.injEq .. ▸ heq).symm
        subst htds
        split at h
        case isTrue hemp =>
          simp only [Outcome.returned.injEq, Except.ok.injEq,
            Prod.mk.injEq] at h
          exact Or.inl ⟨h.1.symm, h.2.symm, List.isEmpty_iff.mp hemp⟩
        case isFalse hemp =>
          split at h
          · exact Outcome.noConfusion h
          case _ bf hbf =>
            split at h
            · simp at h
            case _ r heq2 =>
              simp only [Outcome.returned.injEq, Except.ok.injEq] at h
              exact Or.inr ⟨bf, hbf, by rw [heq2, h]⟩

/-! ### Concrete fixtures -/

/-- The schema the plugin is constructed with: `block_id`, `title`,
`body`. -/
def schema0 : Schema := { fields := ["block_id", "title", "body"] }

/-- A writer environment in which every tantivy operation succeeds. -/
def envOk : WriteEnv :=
  { writerOk := .ok (), addOk := fun _ => .ok (), commitOk := .ok () }

/-- A writer environment in which `index.writer(50_000_000)` fails. -/
def envNoWriter : WriteEnv :=
  { writerOk := .error "boom", addOk := fun _ => .ok (), commitOk := .ok () }

/-- One block whose `title` is a string but whose `text` is non-string
(so the body must be treated as absent). -/
def ws3 : List Block :=
  [{ id := "b1", content := [("title", .string "T"), ("text", .other)] }]

/-- Two blocks sharing the id `x` (the second must win) plus one block
`y`. -/
def ws9 : List Block :=
  [{ id := "x", content := [("title", .string "first")] },
   { id := "x", content := [("title", .string "second")] },
   { id := "y", content := [] }]

/-! ### The claims -/

/-- C1, counterexample: with the counter at 1 and a failing writer,
`on_update` surfaces the error, but the post-failure state still holds
counter 1 — the state the claim predicts (counter already drained to 0
at the point of failure) is not what `on_update` produces. -/
theorem c1_counterexample :
    on_update schema0 envNoWriter [] 0 { queue_reindex := 1, index := [] } =
      .returned (.error "Error during reindex: Error creating writer: boom",
        { queue_reindex := 1, index := [] }) ∧
    ¬ on_update schema0 envNoWriter [] 0 { queue_reindex := 1, index := [] } =
      .returned (.error "Error during reindex: Error creating writer: boom",
        { queue_reindex := 0, index := [] }) := by
  constructor
  · rfl
  · intro hcontra
    have hfirst :
        on_update schema0 envNoWriter [] 0 { queue_reindex := 1, index := [] } =
          .returned (.error "Error during reindex: Error creating writer: boom",
            { queue_reindex := 1, index := [] }) := rfl
    have hcmp := hfirst.symm.trans hcontra
    simp only [Outcome.returned.injEq, Prod.mk.injEq,
      PluginState.mk.injEq] at hcmp
    exact absurd hcmp.2.1 (by omega)

/-- C1 (amended): if the reindex step of a dirty pass fails, the whole
pass fails and the wrapped error is surfaced to the caller of
`on_update`; at the point of failure the dirty counter has NOT been
drained — the `fetch_sub` only runs after a successful pass — so the
counter still holds the loaded value plus any raced increments, and the
pending mutation signal for the batch is retained; the committed index
is unchanged. -/
theorem c1_failed_pass_keeps_counter (schema : Schema) (env : WriteEnv)
    (ws : List Block) (raced : Nat) (st : PluginState) (e0 : String)
    (idx : List Doc)
    (hpos : 0 < st.queue_reindex)
    (hfail : re_index_content schema env (buildReindexList ws) st.index =
      .returned (.error e0, idx)) :
    on_update schema env ws raced st =
      .returned (.error ("Error during reindex: " ++ e0),
        { queue_reindex := st.queue_reindex + raced, index := st.index }) := by
  have hidx : idx = st.index := re_index_content_error hfail
  subst hidx
  unfold on_update
  rw [if_pos hpos, hfail]

/-- C1, witness: loaded counter 3, two raced increments, failing writer:
the error is surfaced and the counter ends at 3 + 2. -/
theorem c1_witness :
    on_update schema0 envNoWriter [] 2 { queue_reindex := 3, index := [] } =
      .returned (.error ("Error during reindex: " ++ "Error creating writer: boom"),
        { queue_reindex := 3 + 2, index := [] }) :=
  c1_failed_pass_keeps_counter schema0 envNoWriter [] 2
    { queue_reindex := 3, index := [] } "Error creating writer: boom" []
    (by decide) (by rfl)

/-- C2: when the dirty counter reads 0, `on_update` returns `Ok` and
performs no index mutation — the committed index is literally unchanged,
so every query-execution function yields identical results (same scores,
same ids) before and after the call. -/
theorem c2_clean_pass_no_mutation (schema : Schema) (env : WriteEnv)
    (ws : List Block) (raced : Nat) (st : PluginState)
    (h0 : st.queue_reindex = 0) :
    on_update schema env ws raced st =
      .returned (.ok (), { queue_reindex := raced, index := st.index }) ∧
    ∀ (queryExec : List Doc → List SearchResult),
      queryExec ({ queue_reindex := raced, index := st.index } :
        PluginState).index = queryExec st.index := by
  constructor
  · unfold on_update
    rw [if_neg (by omega)]
    simp [h0]
  · intro _
    rfl

/-- C2, witness: with a clean counter even a broken writer environment
is never touched. -/
theorem c2_witness :
    on_update schema0 envNoWriter [] 1 { queue_reindex := 0, index := [] } =
      .returned (.ok (), { queue_reindex := 1, index := [] }) ∧
    ∀ (queryExec : List Doc → List SearchResult),
      queryExec ({ queue_reindex := 1, index := [] } : PluginState).index =
        queryExec ({ queue_reindex := 0, index := [] } : PluginState).index :=
  c2_clean_pass_no_mutation schema0 envNoWriter [] 1
    { queue_reindex := 0, index := [] } rfl

/-- C3: in a successful dirty pass, the documents appended to the index
are exactly the projections of the enumerated blocks: every added
document carries the id of some enumerated block, its `title` field
filtered to string values and its `text` field filtered to string values
(any other value type is treated as absent), and every enumerated block
contributes a document with its id (always containing `block_id`). -/
theorem c3_extraction (schema : Schema) (env : WriteEnv) (ws : List Block)
    (raced : Nat) (st st' : PluginState) (u : Unit)
    (hpos : 0 < st.queue_reindex)
    (h : on_update schema env ws raced st = .returned (.ok u, st')) :
    st'.index = st.index ++ (buildReindexList ws).map buildDoc ∧
    (∀ d ∈ (buildReindexList ws).map buildDoc, ∃ b ∈ ws,
      d.block_id = b.id ∧
      d.title = (contentGet b.content "title").bind anyAsString ∧
      d.body = (contentGet b.content "text").bind anyAsString) ∧
    (∀ b ∈ ws, ∃ d ∈ (buildReindexList ws).map buildDoc,
      d.block_id = b.id) := by
  refine ⟨(on_update_ok_inv h).2.2 hpos, ?_, ?_⟩
  · intro d hd
    obtain ⟨e, he, hde⟩ := List.mem_map.mp hd
    rcases foldl_insert_mem ws [] e he with h1 | h1
    · simp at h1
    · obtain ⟨b, hb, hbe⟩ := h1
      refine ⟨b, hb, ?_, ?_, ?_⟩ <;> rw [← hde, hbe] <;> rfl
  · intro b hb
    have hk := foldl_insert_keys_of_mem ws [] b hb
    obtain ⟨e, he, hke⟩ := List.mem_map.mp hk
    exact ⟨buildDoc e, List.mem_map_of_mem _ he, by rw [← hke]; rfl⟩

/-- C3, witness: a block with string title and non-string text yields
one document with `block_id`, the title, and no body. -/
theorem c3_witness :
    ({ queue_reindex := 0,
        index := [{ block_id := "b1", title := some "T", body := none }] } :
      PluginState).index =
      ({ queue_reindex := 1, index := [] } : PluginState).index ++
        (buildReindexList ws3).map buildDoc ∧
    (∀ d ∈ (buildReindexList ws3).map buildDoc, ∃ b ∈ ws3,
      d.block_id = b.id ∧
      d.title = (contentGet b.content "title").bind anyAsString ∧
      d.body = (contentGet b.content "text").bind anyAsString) ∧
    (∀ b ∈ ws3, ∃ d ∈ (buildReindexList ws3).map buildDoc,
      d.block_id = b.id) :=
  c3_extraction schema0 envOk ws3 0 { queue_reindex := 1, index := [] }
    { queue_reindex := 0,
      index := [{ block_id := "b1", title := some "T", body := none }] } ()
    (by decide) (by rfl)

/-- C4: a successful `on_update` ends with the counter decremented by
exactly the value loaded at the start of the pass — equivalently, the
raced increments that arrived between the load and the `fetch_sub` all
remain in the counter. -/
theorem c4_decrement_by_loaded (schema : Schema) (env : WriteEnv)
    (ws : List Block) (raced : Nat) (st st' : PluginState) (u : Unit)
    (h : on_update schema env ws raced st = .returned (.ok u, st')) :
    st'.queue_reindex = st.queue_reindex + raced - st.queue_reindex ∧
    st'.queue_reindex = raced :=
  ⟨by rw [(on_update_ok_inv h).1]; omega, (on_update_ok_inv h).1⟩

/-- C4, witness: counter loaded at 3, two raced increments: the pass
ends with the counter at 2, not 0. -/
theorem c4_witness :
    ({ queue_reindex := 2, index := [] } : PluginState).queue_reindex =
      ({ queue_reindex := 3, index := [] } : PluginState).queue_reindex + 2 -
        ({ queue_reindex := 3, index := [] } : PluginState).queue_reindex ∧
    ({ queue_reindex := 2, index := [] } : PluginState).queue_reindex = 2 :=
  c4_decrement_by_loaded schema0 envOk [] 2 { queue_reindex := 3, index := [] }
    { queue_reindex := 2, index := [] } () (by rfl)

/-- C8: a reindex pass only ever appends documents: the prior index is a
prefix of the result, every previously committed document is still
present afterwards (so re-adding a block with an already-indexed id
keeps the prior document), and a successful pass appends exactly the
batch. -/
theorem c8_append_only (schema : Schema) (env : WriteEnv)
    (blocks : List (String × (Option String × Option String)))
    (index idx : List Doc) (r : Except String Unit)
    (h : re_index_content schema env blocks index = .returned (r, idx)) :
    (∃ added, idx = index ++ added) ∧
    (∀ d ∈ index, d ∈ idx) ∧
    (r = .ok () → idx = index ++ blocks.map buildDoc) := by
  refine ⟨?_, ?_, ?_⟩
  · cases r with
    | error e => exact ⟨[], by rw [re_index_content_error h, List.append_nil]⟩
    | ok u => exact ⟨blocks.map buildDoc, re_index_content_ok h⟩
  · intro d hd
    cases r with
    | error e => rw [re_index_content_error h]; exact hd
    | ok u => rw [re_index_content_ok h]; exact List.mem_append_left _ hd
  · intro hr
    subst hr
    exact re_index_content_ok h

/-- The document committed for id `x` by an earlier pass. -/
def docOld : Doc := { block_id := "x", title := some "old", body := none }

/-- The document committed for id `x` by the later pass. -/
def docNew : Doc := { block_id := "x", title := some "new", body := none }

/-- C8, witness: re-adding id `x` leaves the previously committed
document for `x` in place and appends a second one. -/
theorem c8_witness :
    (∃ added, [docOld, docNew] = [docOld] ++ added) ∧
    (∀ d ∈ [docOld], d ∈ [docOld, docNew]) ∧
    ((.ok () : Except String Unit) = .ok () →
      [docOld, docNew] = [docOld] ++ [("x", (some "new", none))].map buildDoc) :=
  c8_append_only schema0 envOk [("x", (some "new", none))]
    [docOld] [docOld, docNew] (.ok ()) (by rfl)

/-- C9: the per-pass batch is keyed by block id: the appended documents
have pairwise-distinct block ids, and the entry indexed for id `k` is
the extraction of the last enumerated block with that id. -/
theorem c9_dedup_last_wins (schema : Schema) (env : WriteEnv)
    (ws : List Block) (raced : Nat) (st st' : PluginState) (u : Unit)
    (hpos : 0 < st.queue_reindex)
    (h : on_update schema env ws raced st = .returned (.ok u, st')) :
    st'.index = st.index ++ (buildReindexList ws).map buildDoc ∧
    (((buildReindexList ws).map buildDoc).map fun d => d.block_id).Nodup ∧
    ∀ k, (buildReindexList ws).lookup k =
      (ws.reverse.find? fun b => b.id == k).map extract := by
  refine ⟨(on_update_ok_inv h).2.2 hpos, ?_, ?_⟩
  · have hnd := foldl_insert_nodup ws [] (by simp)
    have hmm : (((buildReindexList ws).map buildDoc).map fun d => d.block_id) =
        keysOf (buildReindexList ws) := by
      rw [List.map_map]
      rfl
    rw [hmm]
    exact hnd
  · intro k
    show (ws.foldl (fun a b => insertAssoc a b.id (extract b)) []).lookup k = _
    rw [foldl_insert_lookup]
    cases hf : ws.reverse.find? fun b => b.id == k with
    | none => simp
    | some b => simp

/-- C9, witness: two blocks with id `x` produce a single document for
`x`, carrying the last enumerated title. -/
theorem c9_witness :
    ({ queue_reindex := 0,
        index := [{ block_id := "x", title := some "second", body := none },
                  { block_id := "y", title := none, body := none }] } :
      PluginState).index =
      ({ queue_reindex := 1, index := [] } : PluginState).index ++
        (buildReindexList ws9).map buildDoc ∧
    (((buildReindexList ws9).map buildDoc).map fun d => d.block_id).Nodup ∧
    (∀ k, (buildReindexList ws9).lookup k =
      (ws9.reverse.find? fun b => b.id == k).map extract) :=
  c9_dedup_last_wins schema0 envOk ws9 0 { queue_reindex := 1, index := [] }
    { queue_reindex := 0,
      index := [{ block_id := "x", title := some "second", body := none },
                { block_id := "y", title := none, body := none }] } ()
    (by decide) (by rfl)

/-- C5: when the reader and parser succeed and every hit document is
retrievable, `search` succeeds, keeping exactly the hits whose stored
`block_id` is a string and emitting one diagnostic per skipped hit:
every collector hit lands in the results or in the diagnostics, and the
search as a whole does not fail. -/
theorem c5_skip_bad_hits (schema : Schema) (env : SearchEnv) (bf : Nat)
    (tds : List (Score × Nat))
    (hr : env.readerOk = .ok ()) (hp : env.parseOk = .ok ())
    (htd : env.topDocs = .ok tds)
    (hfetch : ∀ p ∈ tds, ∃ d, env.docAt p.2 = .ok d)
    (hbf : schema.get_field "block_id" = some bf) :
    search schema env =
      .returned (.ok (goodHits env bf tds, badHits env bf tds)) ∧
    tds.length = (goodHits env bf tds).length + (badHits env bf tds).length := by
  refine ⟨?_, goodHits_badHits_length env bf tds hfetch⟩
  unfold search
  simp only [hr, hp, htd]
  by_cases hemp : tds.isEmpty
  · have h0 : tds = [] := List.isEmpty_iff.mp hemp
    subst h0
    simp [goodHits, badHits]
  · rw [if_neg hemp]
    simp only [hbf, searchLoop_fetch_ok env bf tds hfetch]

/-- Retrieved document for address `n` in the C5 scenario: address 0
stores a string `block_id` at field 0; any other address stores no
fields at all. -/
def docFor5 (n : Nat) : RetrievedDoc :=
  if n = 0 then { fields := [(0, .str "good")] } else { fields := [] }

/-- A search environment with one well-formed hit and one hit lacking a
retrievable `block_id`. -/
def env5 : SearchEnv :=
  { readerOk := .ok (), parseOk := .ok (),
    topDocs := .ok [(2, 0), (1, 1)],
    docAt := fun n => .ok (docFor5 n) }

/-- C5, witness: the malformed hit is skipped with a diagnostic and the
well-formed hit is still returned. -/
theorem c5_witness :
    search schema0 env5 =
      .returned (.ok ([{ block_id := "good", score := 2 }],
        [{ fields := [] }])) ∧
    ([((2 : Score), 0), ((1 : Score), 1)] : List (Score × Nat)).length =
      1 + 1 :=
  c5_skip_bad_hits schema0 env5 0 [(2, 0), (1, 1)] rfl rfl rfl
    (fun p _ => ⟨docFor5 p.2, rfl⟩) rfl

/-- C6: under the `TopDocs` collector contract (at most 10 hits, scores
in descending order — the limit 10 is hard-coded at the call site),
whatever result collection `search` returns has size at most 10 and is
ordered by descending score. -/
theorem c6_topk_sorted (schema : Schema) (env : SearchEnv)
    (tds : List (Score × Nat)) (items : List SearchResult)
    (diags : List RetrievedDoc)
    (htd : env.topDocs = .ok tds)
    (hlen : tds.length ≤ 10)
    (hsort : (tds.map fun p => p.1).Pairwise fun a b => b ≤ a)
    (h : search schema env = .returned (.ok (items, diags))) :
    items.length ≤ 10 ∧
    (items.map fun r => r.score).Pairwise fun a b => b ≤ a := by
  rcases search_ok_inv htd h with ⟨hi, _, _⟩ | ⟨bf, _, hloop⟩
  · subst hi
    simp
  · have hsub := searchLoop_scores_sublist env bf tds items diags hloop
    constructor
    · have hle := hsub.length_le
      simp only [List.length_map] at hle
      omega
    · exact List.Pairwise.sublist hsub hsort

/-- Retrieved document for address `n` in the C6 scenario: every
address stores a string `block_id`. -/
def docFor6 (n : Nat) : RetrievedDoc :=
  { fields := [(0, .str (if n = 0 then "a" else "b"))] }

/-- A search environment with two well-formed hits with descending
scores. -/
def env6 : SearchEnv :=
  { readerOk := .ok (), parseOk := .ok (),
    topDocs := .ok [(3, 0), (2, 1)],
    docAt := fun n => .ok (docFor6 n) }

/-- C6, witness: two hits come back, still at most 10 and still in
descending score order. -/
theorem c6_witness :
    ([{ block_id := "a", score := 3 }, { block_id := "b", score := 2 }] :
      List SearchResult).length ≤ 10 ∧
    (([{ block_id := "a", score := 3 }, { block_id := "b", score := 2 }] :
      List SearchResult).map fun r => r.score).Pairwise (fun a b => b ≤ a) :=
  c6_topk_sorted schema0 env6 [(3, 0), (2, 1)]
    [{ block_id := "a", score := 3 }, { block_id := "b", score := 2 }] []
    rfl (by decide)
    (by norm_num [List.pairwise_cons])
    (by rfl)

/-- C7: a failing reader construction, or a query string the parser
rejects, makes `search` return that error to the caller: it neither
panics nor returns an empty `Ok` result. -/
theorem c7_errors_surfaced (schema : Schema) (env : SearchEnv)
    (h : (∃ e, env.readerOk = .error e) ∨
      (env.readerOk = .ok () ∧ ∃ e, env.parseOk = .error e)) :
    ∃ e, search schema env = .returned (.error e) := by
  unfold search
  rcases h with ⟨e, he⟩ | ⟨hr, e, hp⟩
  · exact ⟨e, by simp [he]⟩
  · exact ⟨e, by simp [hr, hp]⟩

/-- A search environment whose query parser rejects the query. -/
def env7 : SearchEnv :=
  { readerOk := .ok (), parseOk := .error "bad query",
    topDocs := .ok [], docAt := fun _ => .error "unused" }

/-- C7, witness: a rejected query makes `search` return an error. -/
theorem c7_witness : ∃ e, search schema0 env7 = .returned (.error e) :=
  c7_errors_surfaced schema0 env7 (Or.inr ⟨rfl, "bad query", rfl⟩)

/-- A field lookup for a declared field name always resolves. -/
theorem fieldIdx_isSome_of_mem {fields : List String} {name : String}
    (h : name ∈ fields) : (fieldIdx fields name).isSome := by
  induction fields with
  | nil => simp at h
  | cons f fs ih =>
    unfold fieldIdx
    by_cases hf : f = name
    · simp [hf]
    · rcases List.mem_cons.mp h with h1 | h1
      · exact absurd h1.symm hf
      · simp [beq_false_of_ne hf, ih h1]

/-- C10: when the schema declares `block_id`, `title` and `body`, the
`get_field(...).unwrap()` calls in `re_index_content` and `search` can
never hit their panicking branch. -/
theorem c10_no_panic (schema : Schema)
    (hb : "block_id" ∈ schema.fields) (ht : "title" ∈ schema.fields)
    (hbody : "body" ∈ schema.fields) :
    (∀ (env : WriteEnv)
      (blocks : List (String × (Option String × Option String)))
      (index : List Doc),
      re_index_content schema env blocks index ≠ .panicked) ∧
    (∀ (senv : SearchEnv), search schema senv ≠ .panicked) := by
  obtain ⟨ib, hib⟩ := Option.isSome_iff_exists.mp (fieldIdx_isSome_of_mem hb)
  obtain ⟨it, hit⟩ := Option.isSome_iff_exists.mp (fieldIdx_isSome_of_mem ht)
  obtain ⟨iy, hiy⟩ := Option.isSome_iff_exists.mp (fieldIdx_isSome_of_mem hbody)
  have hgb : schema.get_field "block_id" = some ib := hib
  have hgt : schema.get_field "title" = some it := hit
  have hgy : schema.get_field "body" = some iy := hiy
  constructor
  · intro env blocks index
    unfold re_index_content
    rw [hgb, hgt, hgy]
    cases hw : env.writerOk with
    | error e => simp
    | ok u =>
      cases ha : addAll env (blocks.map buildDoc) with
      | error e => simp [ha]
      | ok v =>
        cases hc : env.commitOk with
        | error e => simp [ha]
        | ok w => simp [ha]
  · intro senv
    unfold search
    cases hr : senv.readerOk with
    | error e => simp
    | ok u =>
      cases hp : senv.parseOk with
      | error e => simp
      | ok v =>
        cases htds : senv.topDocs with
        | error e => simp
        | ok tds =>
          by_cases hemp : tds.isEmpty
          · simp [hemp]
          · cases hl : searchLoop senv ib tds with
            | error e => simp [hemp, hgb, hl]
            | ok r => simp [hemp, hgb, hl]

/-- C10, witness: the plugin's actual schema declares all three fields,
so neither operation can panic. -/
theorem c10_witness :
    (∀ (env : WriteEnv)
      (blocks : List (String × (Option String × Option String)))
      (index : List Doc),
      re_index_content schema0 env blocks index ≠ .panicked) ∧
    (∀ (senv : SearchEnv), search schema0 senv ≠ .panicked) :=
  c10_no_panic schema0 (by decide) (by decide) (by decide)

end Indexing
